import Mathlib

/-!
Verification of the `tokenring-ai/code-watch` change-debounce and
directive-dispatch pipeline (`src/CodeWatchService.ts` and its variants).

Strings are modelled as `List Char`; the JavaScript string operations used by
the source (`trim`, `split("\n")`, `startsWith`, `endsWith`, `includes`,
`substring`) are embedded below with JavaScript semantics.
-/

/-- Strings from the source are modelled as lists of characters. -/
abbrev Str := List Char

/-- JavaScript whitespace characters relevant to `String.prototype.trim`
(ASCII subset: space, tab, newline, carriage return, vertical tab, form feed). -/
def jsWs (c : Char) : Bool :=
  c = ' ' || c = '\t' || c = '\n' || c = '\r' || c = '\u000B' || c = '\u000C'

/-- Leading-whitespace removal, the left half of `String.prototype.trim`. -/
def jsTrimStart (s : Str) : Str := s.dropWhile jsWs

/-- Trailing-whitespace removal, the right half of `String.prototype.trim`. -/
def jsTrimEnd (s : Str) : Str := (s.reverse.dropWhile jsWs).reverse

/-- JavaScript `s.trim()`: drop whitespace from both ends. -/
def jsTrim (s : Str) : Str := jsTrimEnd (jsTrimStart s)

/-- JavaScript `s.startsWith(p)`. -/
def jsStartsWith : Str → Str → Bool
  | _, [] => true
  | [], _ :: _ => false
  | c :: s, d :: p => c = d && jsStartsWith s p

/-- JavaScript `s.endsWith(p)`. -/
def jsEndsWith (s p : Str) : Bool := jsStartsWith s.reverse p.reverse

/-- JavaScript `s.includes(p)`: `p` occurs contiguously inside `s`. -/
def jsIncludes : Str → Str → Bool
  | [], p => p.isEmpty
  | c :: s, p => jsStartsWith (c :: s) p || jsIncludes s p

/-- JavaScript `text.split("\n")` (single-character separator). -/
def jsSplitNl : Str → List Str
  | [] => [[]]
  | c :: rest =>
    if c = '\n' then [] :: jsSplitNl rest
    else
      match jsSplitNl rest with
      | s :: ss => (c :: s) :: ss
      | [] => [[c]]

example : jsTrim "  // AI! x \t".data = "// AI! x".data := by decide
example : jsSplitNl "a\nb\n".data = ["a".data, "b".data, "".data] := by decide
example : jsIncludes "xAI!y".data "AI!".data = true := by decide
example : jsIncludes "xAI?y".data "AI!".data = false := by decide
example : jsStartsWith "# AI hello".data "# AI".data = true := by decide
example : jsEndsWith "todo: AI".data "AI".data = true := by decide

/-! ## Comment scanner (`processFileForAIComments`, `checkAndTriggerAIAction`,
`handleAIComment` in `src/CodeWatchService.ts` / `src/unnamed/part_001`) -/

/-- The three directive kinds of the scanner. In the source they are the three
branches of `handleAIComment`: the `AI!` branch calls `triggerCodeModification`,
the `AI?` and `AI` branches are present but commented out. -/
inductive TriggerKind where
  | Modify
  | Question
  | Note
deriving Repr, DecidableEq

/-- A classified directive extracted from file content. `instructionText` is the
`content` argument the source passes on to the action handlers. -/
structure Trigger where
  filePath : Str
  lineNumber : Nat
  rawLine : Str
  instructionText : Str
  kind : TriggerKind
deriving Repr, DecidableEq

/-- The comment-body extraction at the top of `handleAIComment`:
`let content = commentLine.trim(); if (commentLine.startsWith("# "))
content = commentLine.substring(2); else if (commentLine.startsWith("// "))
content = commentLine.substring(3);`. -/
def commentBody (commentLine : Str) : Str :=
  if jsStartsWith commentLine "# ".data then commentLine.drop 2
  else if jsStartsWith commentLine "// ".data then commentLine.drop 3
  else jsTrim commentLine

/-- The branch structure of `handleAIComment`: `content.includes("AI!")` triggers
code modification; otherwise `commentLine.includes("AI?")` and
`commentLine.includes("AI")` select the (disabled) question/note branches.
The result reifies which branch was taken and the `content` it would receive. -/
def handleAIComment (commentLine : Str) : Option (TriggerKind × Str) :=
  if jsIncludes (commentBody commentLine) "AI!".data then
    some (.Modify, commentBody commentLine)
  else if jsIncludes commentLine "AI?".data then
    some (.Question, commentBody commentLine)
  else if jsIncludes commentLine "AI".data then
    some (.Note, commentBody commentLine)
  else none

/-- The dispatch test `checkAndTriggerAIAction`: a comment line is handled when it starts with
`# AI` / `// AI`, or else when it ends with `AI`, `AI!` or `AI?`. -/
def checkAndTriggerAIAction (line : Str) : Option (TriggerKind × Str) :=
  if jsStartsWith line "# AI".data || jsStartsWith line "// AI".data then
    handleAIComment line
  else if jsEndsWith line "AI".data || jsEndsWith line "AI!".data
      || jsEndsWith line "AI?".data then
    handleAIComment line
  else none

/-- The directive test of `checkAndTriggerAIAction` as a single predicate
(the two branches of the source call the same handler). -/
def isDirective (line : Str) : Bool :=
  jsStartsWith line "# AI".data || jsStartsWith line "// AI".data
  || jsEndsWith line "AI".data || jsEndsWith line "AI!".data
  || jsEndsWith line "AI?".data

/-- The comment test of the scanning loop: the trimmed line starts with `#`
(shell style) or else with `//` (C style); both branches are identical. -/
def isCommentLine (line : Str) : Bool :=
  jsStartsWith line "#".data || jsStartsWith line "//".data

/-- One iteration of the `for` loop of `processFileForAIComments`: the raw line
at 0-based index `i` is trimmed, comment lines go through
`checkAndTriggerAIAction`, and the reported line number is `i + 1`. -/
def scanOneLine (filePath : Str) (i : Nat) (raw : Str) : List Trigger :=
  if isCommentLine (jsTrim raw) then
    match checkAndTriggerAIAction (jsTrim raw) with
    | some (k, content) => [⟨filePath, i + 1, jsTrim raw, content, k⟩]
    | none => []
  else []

/-- The `for` loop of `processFileForAIComments` over the `split("\n")` array,
starting at 0-based index `i`. -/
def scanLines (filePath : Str) : Nat → List Str → List Trigger
  | _, [] => []
  | i, raw :: rest => scanOneLine filePath i raw ++ scanLines filePath (i + 1) rest

/-- The scan contract `scan(filePath, content)`: split into lines and run the scanning loop. -/
def scan (filePath text : Str) : List Trigger :=
  scanLines filePath 0 (jsSplitNl text)

example :
    scan "f.py".data "x\n// AI! Add error handling\ny".data =
      [⟨"f.py".data, 2, "// AI! Add error handling".data,
        "AI! Add error handling".data, .Modify⟩] := by decide
example :
    scan "f.py".data "# AI? what pattern should I use".data =
      [⟨"f.py".data, 1, "# AI? what pattern should I use".data,
        "AI? what pattern should I use".data, .Question⟩] := by decide
example :
    scan "f.py".data "// todo: AI".data =
      [⟨"f.py".data, 1, "// todo: AI".data, "todo: AI".data, .Note⟩] := by decide
example :
    scan "f.py".data "#stuff AI!".data =
      [⟨"f.py".data, 1, "#stuff AI!".data, "#stuff AI!".data, .Modify⟩] := by
  decide

/-! ## File-task pipeline and agent payload (`processFileForAIComments`,
`triggerCodeModification` in `src/unnamed/part_001`) -/

/-- The task body `processFileForAIComments` of `src/unnamed/part_001` (lines 126-144):
`const text = await this.fileSystem.getFile(filePath); if (!text) return;`
then scan. A `none` read models a null result, and JavaScript `!text` is also
true for the empty string. The function body contains no logging statement, so
the second component (log lines emitted by this function) is always empty. -/
def processFileForAIComments (filePath : Str) (readResult : Option Str) :
    List Trigger × List Str :=
  match readResult with
  | none => ([], [])
  | some text => if text.isEmpty then ([], []) else (scan filePath text, [])

/-- The fixed system prompt of `triggerCodeModification`. -/
def systemPromptStr : Str :=
  ("When you output a file with file tool, you MUST remove any lines that " ++
   "end with AI!. It is a critical failure to leave these lines in the file.").data

/-- The middle section of the user-message template literal of
`triggerCodeModification`, between the two `${filePath}` substitutions. -/
def msgMid : Str :=
  (", adding instructions to the file, which they expect AI to execute.\n" ++
   "Look for any lines in the file marked with the tag AI!, which contain the users instructions.\n" ++
   "Complete the instructions in that line or in any nearby comments, using any tools available to you to complete the task.\n" ++
   "Once complete, update the file using the file command. You MUST remove any lines that end with AI!. It is a critical failure to leave these lines in the file.\n" ++
   "Afterwards, print a one sentence summary of the changes made to the file.\n" ++
   "\n" ++
   "Here is the current, up to date version of the file ").data

/-- The user-message template of `triggerCodeModification` after its leading
newline: `:The user has edited the file ${filePath}`, the middle section,
`${filePath}:` and two newlines, then `${fileText}`. -/
def userMsgBody (filePath fileText : Str) : Str :=
  ":The user has edited the file ".data ++ filePath ++ msgMid ++ filePath ++
    ":\n\n".data ++ fileText

/-- The full user-message template literal of `triggerCodeModification` before
the final `.trim()`: the backtick literal opens with a newline, then the body
with `filePath` and `fileText` substituted. -/
def userMsgTemplate (filePath fileText : Str) : Str :=
  "\n".data ++ userMsgBody filePath fileText

/-- The instruction payload sent to the agent: system prompt plus the single
user message (the trimmed template). -/
structure AgentInvocation where
  systemPrompt : Str
  userMessage : Str
deriving Repr, DecidableEq

/-- The dispatch step `triggerCodeModification(content, filePath, lineNumber)` of
`src/unnamed/part_001` (lines 197-250): the file is re-read fresh at invocation
time (`freshRead` is that second `getFile` result, distinct from the scan-time
read); `if (!fileText) return;` aborts on null/empty; otherwise the invocation
is built from `filePath` and the fresh `fileText` only. The `content` argument
(the triggering instruction text) is used solely in the log line
`[CodeWatchService] Instruction: ...`, returned here as the log component. -/
def triggerCodeModification (content filePath : Str) (freshRead : Option Str) :
    Option AgentInvocation × List Str :=
  match freshRead with
  | none => (none, [])
  | some fileText =>
    if fileText.isEmpty then (none, [])
    else
      (some ⟨systemPromptStr, jsTrim (userMsgTemplate filePath fileText)⟩,
       ["[CodeWatchService] Instruction: ".data ++ content])

/-- The dispatch step for one scanned file: only the `Modify` branch of
`handleAIComment` invokes `triggerCodeModification`; the `Question` and `Note`
branches are commented out in the source and produce nothing. -/
def agentInvocations (filePath : Str) (scanRead freshRead : Option Str) :
    List AgentInvocation :=
  (processFileForAIComments filePath scanRead).1.filterMap fun t =>
    match t.kind with
    | .Modify => (triggerCodeModification t.instructionText filePath freshRead).1
    | _ => none

/-! ## The batch loop of `processNextFile` (lines 111-117 of
`src/unnamed/part_001`) -/

/-- The error log line of the `catch` block in `processNextFile`. -/
def batchErrMsg (filePath err : Str) : Str :=
  "[CodeWatchService] Error processing file ".data ++ filePath ++
    ": ".data ++ err

/-- The `for (const filePath of myFiles)` loop: each file is processed under
`try/catch`; a thrown error is caught, logged against that file, and the loop
continues with the next file. `res` is the outcome of processing one file.
Returns the files attempted in order and the error log lines in order. -/
def runBatch (res : Str → Except Str Unit) : List Str → List Str × List Str
  | [] => ([], [])
  | f :: rest =>
    let tail := runBatch res rest
    match res f with
    | .ok _ => (f :: tail.1, tail.2)
    | .error e => (f :: tail.1, batchErrMsg f e :: tail.2)

example :
    runBatch (fun f => if f = "b".data then .error "boom".data else .ok ())
      ["a".data, "b".data, "c".data] =
      (["a".data, "b".data, "c".data], [batchErrMsg "b".data "boom".data]) := by
  decide

/-! ## Event-loop transition system for `onFileChanged` / `processNextFile`

The service runs on a single-threaded cooperative event loop: synchronous code
runs atomically, interleaving happens only at `await` suspension points. The
synchronous prefix of `processNextFile` (the `isProcessing` guard, the
`modifiedFiles` swap, and setting the flag) is one atomic step (`tryStart`).
The `for` loop body is broken into separate steps (begin a file, invoke the
agent inside it, finish the file) so that event deliveries may interleave with
any suspension point. A `Runner` is one live activation of the
`processNextFile` loop; the model allows any number of runners a priori and the
`isProcessing` guard is what must keep the count at one. -/

/-- The watcher event kinds wired up in `startWatching`. -/
inductive EvKind where
  | add
  | change
  | unlink
deriving Repr, DecidableEq

/-- The insertion `this.modifiedFiles.add(filePath)`: JavaScript `Set.add` inserts at the end
when the element is absent and is a no-op otherwise. -/
def addToSet (p : Str) (l : List Str) : List Str :=
  if p ∈ l then l else l ++ [p]

/-- One live activation of the `processNextFile` loop: the files still to be
processed, and the file currently inside `processFileForAIComments` if any
(the Bool records whether its agent invocation is currently active). -/
structure Runner where
  remaining : List Str
  current : Option (Str × Bool)
deriving Repr, DecidableEq

/-- The mutable service state plus a log of files whose processing began. -/
structure SvcState where
  isProcessing : Bool
  modifiedFiles : List Str
  runners : List Runner
  started : List Str
deriving Repr, DecidableEq

/-- The synchronous prefix of `processNextFile` (lines 100-110 of
`src/unnamed/part_001`): return if `isProcessing` or the set is empty,
otherwise swap `modifiedFiles` for a fresh set, raise the flag and enter the
loop (spawn a runner over the swapped batch). -/
def tryStart (s : SvcState) : SvcState :=
  if s.isProcessing then s
  else if s.modifiedFiles.isEmpty then s
  else
    { s with
      isProcessing := true
      modifiedFiles := []
      runners := s.runners ++ [⟨s.modifiedFiles, none⟩] }

/-- The event handler `onFileChanged(eventType, filePath)` (lines 87-95): only `add` and `change`
are handled — the path is added to the set and `processNextFile()` is kicked
off (its synchronous prefix runs immediately). An `unlink` event does not match
the condition and the handler does nothing. -/
def onFileChanged (k : EvKind) (p : Str) (s : SvcState) : SvcState :=
  match k with
  | .add | .change => tryStart { s with modifiedFiles := addToSet p s.modifiedFiles }
  | .unlink => s

/-- The interleaving alphabet: an event delivery, or the resumption of runner
`i` at one of its suspension points. -/
inductive Act where
  | ev (k : EvKind) (p : Str)
  | beginFile (i : Nat)
  | invokeAgent (i : Nat)
  | finishFile (i : Nat)
  | finishRun (i : Nat)
deriving Repr, DecidableEq

/-- Apply one step. Runner steps not enabled in the current state are no-ops,
so every `List Act` denotes a schedule. `finishRun` models the epilogue of
`processNextFile`: `this.isProcessing = false; void this.processNextFile();`
(the synchronous head of the recursive call runs immediately). -/
def applyAct (a : Act) (s : SvcState) : SvcState :=
  match a with
  | .ev k p => onFileChanged k p s
  | .beginFile i =>
    match s.runners.get? i with
    | some ⟨f :: rest, none⟩ =>
      { s with runners := s.runners.set i ⟨rest, some (f, false)⟩
               started := s.started ++ [f] }
    | _ => s
  | .invokeAgent i =>
    match s.runners.get? i with
    | some ⟨rem, some (f, false)⟩ =>
      { s with runners := s.runners.set i ⟨rem, some (f, true)⟩ }
    | _ => s
  | .finishFile i =>
    match s.runners.get? i with
    | some ⟨rem, some _⟩ => { s with runners := s.runners.set i ⟨rem, none⟩ }
    | _ => s
  | .finishRun i =>
    match s.runners.get? i with
    | some ⟨[], none⟩ =>
      tryStart { s with runners := s.runners.eraseIdx i, isProcessing := false }
    | _ => s

/-- Run a schedule from a state. -/
def runActs (s : SvcState) (acts : List Act) : SvcState :=
  acts.foldl (fun s a => applyAct a s) s

/-- The initial service state: flag down, empty set, nothing running. -/
def initState : SvcState := ⟨false, [], [], []⟩

/-- States reachable from `initState` under some schedule. -/
def Reachable (s : SvcState) : Prop := ∃ acts, runActs initState acts = s

/-- Files currently inside `processFileForAIComments` (at most one per runner). -/
def numActiveFiles (s : SvcState) : Nat :=
  (s.runners.filter fun r => r.current.isSome).length

/-- Currently active agent invocations. -/
def numActiveAgents (s : SvcState) : Nat :=
  (s.runners.filter fun r =>
    match r.current with
    | some (_, true) => true
    | _ => false).length

/-! ## Debounce tracker, modelled from the spec

Modelled from the spec: the per-path stability timer of §4.1 ("on `add`/
`change`: cancel the existing timer and start a new `stabilityThresholdMs`
timer; on expiry push a QueueTask") is not implemented under `src/` — the
service delegates it to the external watcher via
`watch("./", { pollInterval: 1000, stabilityThreshold: 2000 })`. -/

/-- Modelled from the spec: the number of QueueTasks the debounce timer emits
for add/change events at the given ascending times on one path. Between two
consecutive events the pending timer fires only when the next event arrives at
or after `t + threshold`; the timer pending after the last event always fires. -/
def debounceTasks (threshold : Nat) : List Nat → Nat
  | [] => 0
  | [_] => 1
  | t₁ :: t₂ :: rest =>
    (if t₁ + threshold ≤ t₂ then 1 else 0) + debounceTasks threshold (t₂ :: rest)

/-- Events on one path within a burst: ascending, consecutive gaps below the
stability threshold. -/
def withinBurst (threshold : Nat) (a b : Nat) : Prop :=
  a ≤ b ∧ b < a + threshold

instance (threshold : Nat) : DecidableRel (withinBurst threshold) := fun a b =>
  inferInstanceAs (Decidable (a ≤ b ∧ b < a + threshold))

example : debounceTasks 2000 [0, 300, 600] = 1 := by decide
example : debounceTasks 2000 [0, 300, 5000] = 2 := by decide

/-! ## Helper lemmas about the string operations -/

theorem jsStartsWith_nil (s : Str) : jsStartsWith s [] = true := by
  cases s <;> rfl

theorem jsStartsWith_iff (p s : Str) :
    jsStartsWith s p = true ↔ ∃ r, s = p ++ r := by
  induction p generalizing s with
  | nil =>
    simp [jsStartsWith_nil]
  | cons d p ih =>
    cases s with
    | nil => simp [jsStartsWith]
    | cons c s =>
      simp [jsStartsWith, Bool.and_eq_true, decide_eq_true_eq, ih,
        List.cons_append, exists_and_left]

theorem jsEndsWith_iff (p s : Str) :
    jsEndsWith s p = true ↔ ∃ r, s = r ++ p := by
  unfold jsEndsWith
  rw [jsStartsWith_iff]
  constructor
  · rintro ⟨r, hr⟩
    refine ⟨r.reverse, ?_⟩
    have h := congrArg List.reverse hr
    simpa using h
  · rintro ⟨r, rfl⟩
    exact ⟨r.reverse, by simp⟩

theorem jsStartsWith_head_ne {c d : Char} (h : c ≠ d) (s p : Str) :
    jsStartsWith (c :: s) (d :: p) = false := by
  simp [jsStartsWith, h]

theorem jsStartsWith_self_append (p s : Str) :
    jsStartsWith (p ++ s) p = true := by
  induction p with
  | nil => exact jsStartsWith_nil s
  | cons c p ih => simp [jsStartsWith, ih]

theorem jsStartsWith_extend {s p : Str} (b : Str) (h : jsStartsWith s p = true) :
    jsStartsWith (s ++ b) p = true := by
  rw [jsStartsWith_iff] at h ⊢
  obtain ⟨r, rfl⟩ := h
  exact ⟨r ++ b, by simp⟩

theorem jsIncludes_nil_pat (s : Str) : jsIncludes s [] = true := by
  cases s with
  | nil => rfl
  | cons c s => simp [jsIncludes, jsStartsWith_nil]

theorem jsIncludes_of_startsWith {s p : Str} (h : jsStartsWith s p = true) :
    jsIncludes s p = true := by
  cases s with
  | nil =>
    cases p with
    | nil => rfl
    | cons d p => simp [jsStartsWith] at h
  | cons c s => simp [jsIncludes, h]

theorem jsIncludes_self (s : Str) : jsIncludes s s = true := by
  cases s with
  | nil => rfl
  | cons c s =>
    have h : jsStartsWith (c :: s) (c :: s) = true := by
      induction s with
      | nil => simp [jsStartsWith]
      | cons d s ih => simp_all [jsStartsWith]
    simp [jsIncludes, h]

theorem jsIncludes_append_left (a : Str) {b p : Str}
    (h : jsIncludes b p = true) : jsIncludes (a ++ b) p = true := by
  induction a with
  | nil => simpa
  | cons c a ih => simp [jsIncludes, ih]

theorem jsIncludes_append_right {a p : Str} (b : Str)
    (h : jsIncludes a p = true) : jsIncludes (a ++ b) p = true := by
  induction a with
  | nil =>
    simp [jsIncludes, List.isEmpty_iff] at h
    subst h
    exact jsIncludes_nil_pat b
  | cons c a ih =>
    simp only [jsIncludes, Bool.or_eq_true] at h ⊢
    rcases h with h | h
    · exact Or.inl (by simpa using jsStartsWith_extend b h)
    · exact Or.inr (ih h)

theorem jsIncludes_middle (a p s : Str) :
    jsIncludes (a ++ (p ++ s)) p = true :=
  jsIncludes_append_left a (jsIncludes_of_startsWith (jsStartsWith_self_append p s))

/-! ## Helper lemmas about the scanner -/

/-- The two branches of `checkAndTriggerAIAction` call the same handler, so the
function equals a single test of `isDirective`. -/
theorem checkAndTriggerAIAction_eq (line : Str) :
    checkAndTriggerAIAction line =
      if isDirective line then handleAIComment line else none := by
  unfold checkAndTriggerAIAction isDirective
  cases h1 : (jsStartsWith line "# AI".data || jsStartsWith line "// AI".data) <;>
    cases h2 : (jsEndsWith line "AI".data || jsEndsWith line "AI!".data
      || jsEndsWith line "AI?".data) <;>
    simp [h1, h2]

/-- Every line `checkAndTriggerAIAction` handles contains `AI`: prefix-marked
lines carry it right after the marker, suffix-marked lines carry it at the end. -/
theorem isDirective_includes_ai {line : Str} (h : isDirective line = true) :
    jsIncludes line "AI".data = true := by
  have h5 : jsStartsWith line "# AI".data = true
      ∨ jsStartsWith line "// AI".data = true
      ∨ jsEndsWith line "AI".data = true
      ∨ jsEndsWith line "AI!".data = true
      ∨ jsEndsWith line "AI?".data = true := by
    simpa [isDirective, Bool.or_eq_true, or_assoc] using h
  rcases h5 with h | h | h | h | h
  · obtain ⟨r, rfl⟩ := (jsStartsWith_iff _ _).1 h
    rw [show ("# AI".data : Str) = "# ".data ++ "AI".data from by decide,
      List.append_assoc]
    exact jsIncludes_middle _ _ _
  · obtain ⟨r, rfl⟩ := (jsStartsWith_iff _ _).1 h
    rw [show ("// AI".data : Str) = "// ".data ++ "AI".data from by decide,
      List.append_assoc]
    exact jsIncludes_middle _ _ _
  · obtain ⟨r, rfl⟩ := (jsEndsWith_iff _ _).1 h
    exact jsIncludes_append_left r (jsIncludes_self _)
  · obtain ⟨r, rfl⟩ := (jsEndsWith_iff _ _).1 h
    exact jsIncludes_append_left r (by decide)
  · obtain ⟨r, rfl⟩ := (jsEndsWith_iff _ _).1 h
    exact jsIncludes_append_left r (by decide)

/-- Stripping the comment marker cannot change whether a pattern starting with
`A` occurs: the marker characters `#`, `/`, ` ` never begin such a pattern. -/
theorem jsIncludes_commentBody (line : Str) (hTrim : jsTrim line = line)
    (tail : Str) :
    jsIncludes (commentBody line) ('A' :: tail) = jsIncludes line ('A' :: tail) := by
  unfold commentBody
  split
  · rename_i h
    obtain ⟨r, rfl⟩ := (jsStartsWith_iff _ _).1 h
    rw [show ("# ".data : Str) = ['#', ' '] from by decide]
    simp only [List.cons_append, List.nil_append, List.drop_succ_cons,
      List.drop_zero, jsIncludes,
      jsStartsWith_head_ne (show ('#' : Char) ≠ 'A' from by decide),
      jsStartsWith_head_ne (show (' ' : Char) ≠ 'A' from by decide),
      Bool.false_or]
    simp
  · split
    · rename_i h
      obtain ⟨r, rfl⟩ := (jsStartsWith_iff _ _).1 h
      rw [show ("// ".data : Str) = ['/', '/', ' '] from by decide]
      simp only [List.cons_append, List.nil_append, List.drop_succ_cons,
        List.drop_zero, jsIncludes,
        jsStartsWith_head_ne (show ('/' : Char) ≠ 'A' from by decide),
        jsStartsWith_head_ne (show (' ' : Char) ≠ 'A' from by decide),
        Bool.false_or]
      simp
    · rw [hTrim]

/-- The `Modify` branch of `handleAIComment` is taken exactly when the comment
body contains `AI!`. -/
theorem handleAIComment_modify {line : Str} {k : TriggerKind} {c : Str}
    (h : handleAIComment line = some (k, c)) (hk : k = .Modify) :
    jsIncludes (commentBody line) "AI!".data = true := by
  subst hk
  unfold handleAIComment at h
  split at h
  · assumption
  · split at h
    · simp at h
    · split at h
      · simp at h
      · simp at h

/-- A line containing `AI` always reaches one of the three branches of
`handleAIComment`, each of which passes on the extracted comment body. -/
theorem handleAIComment_of_ai {line : Str}
    (hai : jsIncludes line "AI".data = true) :
    ∃ k, handleAIComment line = some (k, commentBody line) := by
  unfold handleAIComment
  split
  · exact ⟨.Modify, rfl⟩
  · split
    · exact ⟨.Question, rfl⟩
    · simp [hai]

/-- A trigger produced by one loop iteration at index `j` of the line array is
in the output of the whole loop. -/
theorem mem_scanLines_of_get {fp : Str} {lines : List Str} {j st : Nat}
    {raw : Str} {t : Trigger} (hget : lines.get? j = some raw)
    (hmem : t ∈ scanOneLine fp (st + j) raw) : t ∈ scanLines fp st lines := by
  induction lines generalizing j st with
  | nil => simp at hget
  | cons l ls ih =>
    cases j with
    | zero =>
      simp only [List.get?] at hget
      cases hget
      exact List.mem_append.2 (Or.inl hmem)
    | succ j =>
      simp only [List.get?] at hget
      refine List.mem_append.2 (Or.inr (ih hget ?_))
      have he : st + (j + 1) = (st + 1) + j := by omega
      rw [he] at hmem
      exact hmem

/-- Conversely, every trigger in the loop output comes from one iteration on
one of the lines. -/
theorem exists_of_mem_scanLines {fp : Str} {lines : List Str} {st : Nat}
    {t : Trigger} (h : t ∈ scanLines fp st lines) :
    ∃ raw ∈ lines, ∃ i, t ∈ scanOneLine fp i raw := by
  induction lines generalizing st with
  | nil => simp [scanLines] at h
  | cons l ls ih =>
    rcases List.mem_append.1 h with h | h
    · exact ⟨l, by simp, st, h⟩
    · obtain ⟨raw, hraw, i, hmem⟩ := ih h
      exact ⟨raw, by simp [hraw], i, hmem⟩

/-- Anatomy of one loop iteration that produced a trigger. -/
theorem scanOneLine_inv {fp raw : Str} {i : Nat} {t : Trigger}
    (h : t ∈ scanOneLine fp i raw) :
    isCommentLine (jsTrim raw) = true ∧
      checkAndTriggerAIAction (jsTrim raw) = some (t.kind, t.instructionText) := by
  unfold scanOneLine at h
  split at h
  · rename_i hcm
    split at h
    · rename_i k content heq
      simp only [List.mem_singleton] at h
      subst h
      exact ⟨hcm, heq⟩
    · simp at h
  · simp at h

/-! ## Helper lemmas about the event-loop transition system -/

/-- The inductive invariant: the pending set holds no duplicates, and the
`isProcessing` flag is raised exactly while one runner (one live activation of
the `processNextFile` loop) exists. -/
def SvcInv (s : SvcState) : Prop :=
  s.modifiedFiles.Nodup ∧
    s.runners.length = (if s.isProcessing then 1 else 0)

theorem addToSet_nodup {p : Str} {l : List Str} (h : l.Nodup) :
    (addToSet p l).Nodup := by
  unfold addToSet
  split
  · exact h
  · rename_i hp
    simp [List.nodup_append, h]
    exact hp

theorem inv_tryStart {s : SvcState} (h : SvcInv s) : SvcInv (tryStart s) := by
  obtain ⟨h1, h2⟩ := h
  unfold tryStart
  split
  · exact ⟨h1, h2⟩
  · split
    · exact ⟨h1, h2⟩
    · rename_i hflag _
      simp only [Bool.not_eq_true] at hflag
      have h0 : s.runners.length = 0 := by
        rw [hflag] at h2
        simpa using h2
      refine ⟨List.nodup_nil, ?_⟩
      simp [h0]

theorem inv_initState : SvcInv initState := ⟨List.nodup_nil, rfl⟩

theorem inv_applyAct {s : SvcState} (h : SvcInv s) (a : Act) :
    SvcInv (applyAct a s) := by
  obtain ⟨h1, h2⟩ := h
  cases a with
  | ev k p =>
    cases k with
    | add =>
      show SvcInv (tryStart { s with modifiedFiles := addToSet p s.modifiedFiles })
      exact inv_tryStart ⟨addToSet_nodup h1, h2⟩
    | change =>
      show SvcInv (tryStart { s with modifiedFiles := addToSet p s.modifiedFiles })
      exact inv_tryStart ⟨addToSet_nodup h1, h2⟩
    | unlink => exact ⟨h1, h2⟩
  | beginFile i =>
    simp only [applyAct]
    split
    · exact ⟨h1, by simpa [List.length_set] using h2⟩
    · exact ⟨h1, h2⟩
  | invokeAgent i =>
    simp only [applyAct]
    split
    · exact ⟨h1, by simpa [List.length_set] using h2⟩
    · exact ⟨h1, h2⟩
  | finishFile i =>
    simp only [applyAct]
    split
    · exact ⟨h1, by simpa [List.length_set] using h2⟩
    · exact ⟨h1, h2⟩
  | finishRun i =>
    simp only [applyAct]
    split
    · rename_i heq
      have hi : i < s.runners.length := by
        by_contra hlt
        rw [List.get?_eq_none.2 (by omega)] at heq
        exact Option.noConfusion heq
      have hflag : s.isProcessing = true := by
        cases hf : s.isProcessing
        · exfalso
          rw [hf, if_neg Bool.false_ne_true] at h2
          omega
        · rfl
      rw [hflag, if_pos rfl] at h2
      have hi0 : i = 0 := by omega
      subst hi0
      obtain ⟨r, hr⟩ : ∃ r, s.runners = [r] := by
        rcases hrs : s.runners with _ | ⟨r, rest⟩
        · rw [hrs] at h2
          simp at h2
        · rcases rest with _ | ⟨r2, rest2⟩
          · exact ⟨r, rfl⟩
          · rw [hrs] at h2
            simp at h2
      refine inv_tryStart ⟨h1, ?_⟩
      simp [hr, List.eraseIdx]
    · exact ⟨h1, h2⟩

theorem inv_runActs {s : SvcState} (h : SvcInv s) (acts : List Act) :
    SvcInv (runActs s acts) := by
  induction acts generalizing s with
  | nil => exact h
  | cons a as ih => exact ih (inv_applyAct h a)

theorem reachable_inv {s : SvcState} (h : Reachable s) : SvcInv s := by
  obtain ⟨acts, rfl⟩ := h
  exact inv_runActs inv_initState acts

/-- In a duplicate-free list, each value matches at most one element. -/
theorem nodup_filter_eq_le_one {l : List Str} (h : l.Nodup) (p : Str) :
    (l.filter fun q => q = p).length ≤ 1 := by
  induction l with
  | nil => simp
  | cons a l ih =>
    obtain ⟨ha, hl⟩ := List.nodup_cons.1 h
    rw [List.filter_cons]
    by_cases hap : a = p
    · have hnil : (l.filter fun q => q = p) = [] := by
        rw [List.filter_eq_nil_iff]
        intro b hb
        simp only [decide_eq_true_eq]
        intro hbp
        exact ha (by rw [hap, ← hbp]; exact hb)
      simp [hap, hnil]
    · simp only [hap, decide_False, if_false]
      exact ih hl

theorem runners_length_le_one {s : SvcState} (h : Reachable s) :
    s.runners.length ≤ 1 := by
  have h2 := (reachable_inv h).2
  split at h2 <;> omega

/-! ## Helper lemma for the spec-modelled debounce tracker -/

theorem debounce_burst (th : Nat) (t : Nat) (rest : List Nat)
    (hch : List.Chain' (withinBurst th) (t :: rest)) :
    debounceTasks th (t :: rest) = 1 := by
  induction rest generalizing t with
  | nil => rfl
  | cons t2 r2 ih =>
    have h1 : withinBurst th t t2 := (List.chain'_cons.1 hch).1
    have h2 : List.Chain' (withinBurst th) (t2 :: r2) := (List.chain'_cons.1 hch).2
    have hlt : ¬ t + th ≤ t2 := by
      have := h1.2
      omega
    simp only [debounceTasks, if_neg hlt, Nat.zero_add]
    exact ih t2 h2

/-! ## Helper lemmas for the trimmed agent payload -/

theorem dropWhile_append_of_ne {p : Char → Bool} {x : Str} (y : Str)
    (h : x.dropWhile p ≠ []) : (x ++ y).dropWhile p = x.dropWhile p ++ y := by
  induction x with
  | nil => exact absurd rfl h
  | cons a x ih =>
    by_cases hp : p a = true
    · rw [List.cons_append, List.dropWhile_cons, if_pos hp]
      rw [List.dropWhile_cons, if_pos hp] at h ⊢
      exact ih h
    · rw [List.cons_append, List.dropWhile_cons, if_neg hp,
        List.dropWhile_cons, if_neg hp, List.cons_append]

/-- Trimming on the right of an append stays inside the right part as long as
that part does not trim away completely. -/
theorem jsTrimEnd_append {t : Str} (A : Str) (h : jsTrimEnd t ≠ []) :
    jsTrimEnd (A ++ t) = A ++ jsTrimEnd t := by
  have h' : t.reverse.dropWhile jsWs ≠ [] := by
    intro hh
    exact h (by unfold jsTrimEnd; rw [hh]; rfl)
  unfold jsTrimEnd
  rw [List.reverse_append, dropWhile_append_of_ne _ h', List.reverse_append,
    List.reverse_reverse]

/-- A string opening with a non-whitespace character never trims to nothing. -/
theorem jsTrimEnd_cons_ne {c : Char} (rest : Str) (h : jsWs c = false) :
    jsTrimEnd (c :: rest) ≠ [] := by
  unfold jsTrimEnd
  intro hh
  rw [List.reverse_eq_nil_iff, List.dropWhile_eq_nil_iff] at hh
  have hc := hh c (by simp)
  rw [h] at hc
  exact Bool.false_ne_true hc

/-- The final `.trim()` of `triggerCodeModification` drops exactly the leading
newline of the template and whatever trailing whitespace the template ends in
(the template ends with the substituted file content). -/
theorem jsTrim_userMsgTemplate (fp t : Str) :
    jsTrim (userMsgTemplate fp t) = jsTrimEnd (userMsgBody fp t) := by
  have hbody : userMsgBody fp t = ':' ::
      ("The user has edited the file ".data ++ fp ++ msgMid ++ fp ++
        ":\n\n".data ++ t) := by
    rw [userMsgBody,
      show (":The user has edited the file ".data : Str) =
        ':' :: "The user has edited the file ".data from by decide]
    simp [List.cons_append]
  unfold jsTrim userMsgTemplate jsTrimStart
  rw [show ("\n".data : Str) = ['\n'] from by decide, List.singleton_append,
    List.dropWhile_cons, if_pos (show jsWs '\n' = true from by decide),
    hbody, List.dropWhile_cons,
    if_neg (show ¬ jsWs ':' = true from by decide), ← hbody]

/-! ## The claims -/

/-- The schedule behind the unlink claims: a change to `b.py` arrives and its
processing begins; while it is underway a change to `a.py` arrives, leaving
`a.py` pending in `modifiedFiles`. -/
def c1Trace : List Act :=
  [.ev .change "b.py".data, .beginFile 0, .ev .change "a.py".data]

/-- C1, counterexample. The claim says an `unlink` event for a path with an
outstanding pending change cancels it so that no processing task for the path
is produced. On the code, `onFileChanged` only reacts to `add` and `change`:
with `a.py` pending, delivering `unlink a.py` leaves it pending (second
conjunct), and once the running batch finishes, processing of `a.py` still
begins (third conjunct: the started-task log ends with `a.py`). -/
theorem claim_C1_counterexample :
    (runActs initState c1Trace).modifiedFiles = ["a.py".data]
  ∧ (applyAct (.ev .unlink "a.py".data) (runActs initState c1Trace)).modifiedFiles
      = ["a.py".data]
  ∧ (runActs initState (c1Trace ++
      [.ev .unlink "a.py".data, .finishFile 0, .finishRun 0, .beginFile 0])).started
      = ["b.py".data, "a.py".data] := by
  exact ⟨by decide, by decide, by decide⟩

/-- C1, amended: delivering an `unlink` event is a no-op — `onFileChanged`
ignores it, the pending change survives, and a processing task for the path is
still produced from the burst (demonstrated on the concrete schedule). -/
theorem claim_C1_unlink_ignored :
    (∀ p s, onFileChanged EvKind.unlink p s = s)
  ∧ (runActs initState (c1Trace ++
      [.ev .unlink "a.py".data, .finishFile 0, .finishRun 0, .beginFile 0])).started
      = ["b.py".data, "a.py".data] :=
  ⟨fun _ _ => rfl, by decide⟩

/-- C2: (1) in every reachable state each path occurs at most once in
`modifiedFiles` (the pending set is a set, the per-pair uniqueness invariant);
(2) for any burst of add/change events on one path at ascending times whose
consecutive gaps stay below the stability threshold, the debounce timer
(modelled from the spec, §4.1) emits exactly one task, timed from the last
event. -/
theorem claim_C2_debounce :
    (∀ s p, Reachable s → ((s.modifiedFiles.filter fun q => q = p).length ≤ 1))
  ∧ (∀ th ts, ts ≠ [] → List.Chain' (withinBurst th) ts →
      debounceTasks th ts = 1) := by
  constructor
  · intro s p hr
    exact nodup_filter_eq_le_one (reachable_inv hr).1 p
  · intro th ts hne hch
    cases ts with
    | nil => exact absurd rfl hne
    | cons t rest => exact debounce_burst th t rest hch

/-- Witness for C2 at concrete inputs: the pending-set bound at a reachable
state holding one pending path, and the spec scenario of edits at 0ms, 300ms,
600ms with a 2000ms threshold producing exactly one task. -/
theorem claim_C2_debounce_witness :
    ((runActs initState c1Trace).modifiedFiles.filter
      fun q => q = "a.py".data).length ≤ 1
  ∧ debounceTasks 2000 [0, 300, 600] = 1 :=
  ⟨claim_C2_debounce.1 _ _ ⟨c1Trace, rfl⟩,
   claim_C2_debounce.2 2000 [0, 300, 600] (by decide)
     (by
       rw [List.chain'_cons, List.chain'_cons]
       exact ⟨⟨by omega, by omega⟩, ⟨by omega, by omega⟩,
         List.chain'_singleton 600⟩)⟩

/-- C6: in every reachable state — i.e. under every interleaving of event
deliveries and suspension-point resumptions — at most one file is inside
`processFileForAIComments` and at most one agent invocation is active: the
`isProcessing` flag admits a single live `processNextFile` loop, which
processes its files strictly sequentially. -/
theorem claim_C6_no_overlap (s : SvcState) (h : Reachable s) :
    numActiveAgents s ≤ 1 ∧ numActiveFiles s ≤ 1 := by
  have hlen := runners_length_le_one h
  constructor
  · exact le_trans (List.length_filter_le _ _) hlen
  · exact le_trans (List.length_filter_le _ _) hlen

/-- Witness for C6: a concrete reachable state in which an agent invocation is
active. -/
theorem claim_C6_no_overlap_witness :
    numActiveAgents (runActs initState
      [.ev .change "b.py".data, .beginFile 0, .invokeAgent 0]) ≤ 1
  ∧ numActiveFiles (runActs initState
      [.ev .change "b.py".data, .beginFile 0, .invokeAgent 0]) ≤ 1 :=
  claim_C6_no_overlap _ ⟨_, rfl⟩

/-- C7: the batch loop of `processNextFile` attempts every file of the batch in
order no matter which files fail — a failure is caught, logged against that
file alone (the log lines are exactly those of the failing files, in order),
and the loop neither halts nor re-enqueues the failed file, so each file is
attempted exactly once and never retried. -/
theorem claim_C7_isolation (res : Str → Except Str Unit) (files : List Str) :
    (runBatch res files).1 = files
  ∧ (runBatch res files).2 = files.filterMap (fun f =>
      match res f with
      | .ok _ => none
      | .error e => some (batchErrMsg f e)) := by
  induction files with
  | nil => exact ⟨rfl, rfl⟩
  | cons f rest ih =>
    simp only [runBatch, List.filterMap_cons]
    cases hr : res f with
    | ok u => simp [hr, ih.1, ih.2]
    | error e => simp [hr, ih.1, ih.2]

/-- C3: scanning any content whose line at 0-based split index `i` trims to
`// AI! Add error handling` yields a trigger of kind `Modify` whose
`instructionText` is `AI! Add error handling` (the `// ` marker stripped, the
`AI!` marker text retained) and whose reported line number is the 1-based
position `i + 1`. -/
theorem claim_C3_modify_line (fp text : Str) (i : Nat) (raw : Str)
    (hget : (jsSplitNl text).get? i = some raw)
    (htrim : jsTrim raw = "// AI! Add error handling".data) :
    (⟨fp, i + 1, "// AI! Add error handling".data,
      "AI! Add error handling".data, .Modify⟩ : Trigger)
      ∈ (processFileForAIComments fp (some text)).1 := by
  have hne : text.isEmpty = false := by
    cases htext : text with
    | nil =>
      exfalso
      rw [htext] at hget
      have hraw : raw = [] := by
        cases i with
        | zero =>
          simp only [jsSplitNl, List.get?] at hget
          exact (Option.some.inj hget).symm
        | succ j => simp [jsSplitNl] at hget
      rw [hraw] at htrim
      exact absurd htrim (by decide)
    | cons c rest => rfl
  simp only [processFileForAIComments, hne, Bool.false_eq_true, if_false]
  show _ ∈ scanLines fp 0 (jsSplitNl text)
  refine mem_scanLines_of_get hget ?_
  unfold scanOneLine
  rw [htrim,
    show checkAndTriggerAIAction ("// AI! Add error handling".data)
      = some (TriggerKind.Modify, "AI! Add error handling".data) from by decide,
    if_pos (show isCommentLine ("// AI! Add error handling".data) = true
      from by decide)]
  simp [Nat.zero_add]

/-- Witness for C3 on a concrete three-line file, the directive on line 2. -/
theorem claim_C3_modify_line_witness :
    (⟨"f.py".data, 2, "// AI! Add error handling".data,
      "AI! Add error handling".data, .Modify⟩ : Trigger)
      ∈ (processFileForAIComments "f.py".data
          (some "x\n// AI! Add error handling\ny".data)).1 :=
  claim_C3_modify_line _ _ 1 "// AI! Add error handling".data
    (by decide) (by decide)

/-- C4: (1) for every trimmed directive comment line, classification follows
the fixed precedence — comment body containing `AI!` gives `Modify`, else
`AI?` gives `Question`, else `Note`; (2) only `Modify` triggers lead to an
agent invocation; (3) `# AI? what pattern should I use` classifies as
`Question` and produces no invocation; (4) `// todo: AI` classifies as `Note`
and produces no invocation. -/
theorem claim_C4_precedence :
    (∀ line, jsTrim line = line → isCommentLine line = true →
      isDirective line = true →
      checkAndTriggerAIAction line = some
        ((if jsIncludes (commentBody line) "AI!".data then TriggerKind.Modify
          else if jsIncludes (commentBody line) "AI?".data then
            TriggerKind.Question
          else TriggerKind.Note), commentBody line))
  ∧ (∀ fp scanRead fresh,
      (∀ t ∈ (processFileForAIComments fp scanRead).1,
        t.kind ≠ TriggerKind.Modify) →
      agentInvocations fp scanRead fresh = [])
  ∧ (∀ fp fresh,
      scan fp "# AI? what pattern should I use".data =
        [⟨fp, 1, "# AI? what pattern should I use".data,
          "AI? what pattern should I use".data, .Question⟩]
      ∧ agentInvocations fp (some "# AI? what pattern should I use".data)
          fresh = [])
  ∧ (∀ fp fresh,
      scan fp "// todo: AI".data =
        [⟨fp, 1, "// todo: AI".data, "todo: AI".data, .Note⟩]
      ∧ agentInvocations fp (some "// todo: AI".data) fresh = []) := by
  refine ⟨?_, ?_, ?_, ?_⟩
  · intro line ht hc hd
    have hq : jsIncludes (commentBody line) "AI?".data
        = jsIncludes line "AI?".data := by
      have h := jsIncludes_commentBody line ht "I?".data
      rw [show ('A' :: "I?".data : Str) = "AI?".data from by decide] at h
      exact h
    rw [checkAndTriggerAIAction_eq, if_pos hd]
    unfold handleAIComment
    by_cases hbang : jsIncludes (commentBody line) "AI!".data = true
    · simp [hbang]
    · have hbang' : jsIncludes (commentBody line) "AI!".data = false := by
        simpa using hbang
      by_cases hquest : jsIncludes (commentBody line) "AI?".data = true
      · have hq' : jsIncludes line "AI?".data = true := by rw [← hq]; exact hquest
        simp [hbang', hquest, hq']
      · have hquest' : jsIncludes (commentBody line) "AI?".data = false := by
          simpa using hquest
        have hq' : jsIncludes line "AI?".data = false := by rw [← hq]; exact hquest'
        have hai : jsIncludes line "AI".data = true := isDirective_includes_ai hd
        simp [hbang', hquest', hq', hai]
  · intro fp scanRead fresh hall
    unfold agentInvocations
    rw [List.filterMap_eq_nil_iff]
    intro t ht
    have hne := hall t ht
    cases hk : t.kind with
    | Modify => exact absurd hk hne
    | Question => simp [hk]
    | Note => simp [hk]
  · intro fp fresh
    have hsp : jsSplitNl "# AI? what pattern should I use".data
        = ["# AI? what pattern should I use".data] := by decide
    have hscan : scan fp "# AI? what pattern should I use".data =
        [⟨fp, 1, "# AI? what pattern should I use".data,
          "AI? what pattern should I use".data, .Question⟩] := by
      unfold scan
      rw [hsp]
      unfold scanLines scanOneLine
      rw [show jsTrim ("# AI? what pattern should I use".data)
            = "# AI? what pattern should I use".data from by decide,
        show checkAndTriggerAIAction ("# AI? what pattern should I use".data)
            = some (TriggerKind.Question,
                "AI? what pattern should I use".data) from by decide,
        if_pos (show isCommentLine ("# AI? what pattern should I use".data)
            = true from by decide)]
      simp [scanLines]
    refine ⟨hscan, ?_⟩
    unfold agentInvocations
    simp only [processFileForAIComments,
      show ("# AI? what pattern should I use".data : Str).isEmpty = false
        from by decide, Bool.false_eq_true, if_false, hscan]
    simp
  · intro fp fresh
    have hsp : jsSplitNl "// todo: AI".data = ["// todo: AI".data] := by decide
    have hscan : scan fp "// todo: AI".data =
        [⟨fp, 1, "// todo: AI".data, "todo: AI".data, .Note⟩] := by
      unfold scan
      rw [hsp]
      unfold scanLines scanOneLine
      rw [show jsTrim ("// todo: AI".data) = "// todo: AI".data from by decide,
        show checkAndTriggerAIAction ("// todo: AI".data)
            = some (TriggerKind.Note, "todo: AI".data) from by decide,
        if_pos (show isCommentLine ("// todo: AI".data) = true from by decide)]
      simp [scanLines]
    refine ⟨hscan, ?_⟩
    unfold agentInvocations
    simp only [processFileForAIComments,
      show ("// todo: AI".data : Str).isEmpty = false from by decide,
      Bool.false_eq_true, if_false, hscan]
    simp

/-- Witness for C4: the general precedence statement applied to the concrete
Question-example line. -/
theorem claim_C4_precedence_witness :
    checkAndTriggerAIAction "# AI? what pattern should I use".data
      = some (TriggerKind.Question, "AI? what pattern should I use".data) := by
  have h := claim_C4_precedence.1 "# AI? what pattern should I use".data
    (by decide) (by decide) (by decide)
  rw [h]
  rw [show commentBody ("# AI? what pattern should I use".data)
      = "AI? what pattern should I use".data from by decide]
  rw [if_neg (by decide), if_pos (by decide)]

/-- C5: if no trimmed comment line of the content that qualifies as a
directive has a comment body containing `AI!`, then the scan yields no
`Modify` trigger and no agent invocation — in particular a rescan after the
triggering `AI!` line was removed is a no-op. -/
theorem claim_C5_idempotent (fp text : Str)
    (H : ∀ raw ∈ jsSplitNl text, isCommentLine (jsTrim raw) = true →
      isDirective (jsTrim raw) = true →
      jsIncludes (commentBody (jsTrim raw)) "AI!".data = false) :
    ((processFileForAIComments fp (some text)).1.filter
        fun t => t.kind == TriggerKind.Modify) = []
  ∧ ∀ fresh, agentInvocations fp (some text) fresh = [] := by
  have hnomod : ∀ t ∈ (processFileForAIComments fp (some text)).1,
      t.kind ≠ TriggerKind.Modify := by
    intro t ht
    simp only [processFileForAIComments] at ht
    split at ht
    · simp at ht
    · obtain ⟨raw, hrawmem, i, hone⟩ := exists_of_mem_scanLines ht
      obtain ⟨hcm, hact⟩ := scanOneLine_inv hone
      rw [checkAndTriggerAIAction_eq] at hact
      by_cases hd : isDirective (jsTrim raw) = true
      · rw [if_pos hd] at hact
        intro hk
        have hbang := handleAIComment_modify hact hk
        rw [H raw hrawmem hcm hd] at hbang
        exact Bool.false_ne_true hbang
      · rw [if_neg hd] at hact
        exact Option.noConfusion hact
  constructor
  · rw [List.filter_eq_nil_iff]
    intro t ht
    simp [hnomod t ht]
  · intro fresh
    unfold agentInvocations
    rw [List.filterMap_eq_nil_iff]
    intro t ht
    have hne := hnomod t ht
    cases hk : t.kind with
    | Modify => exact absurd hk hne
    | Question => simp [hk]
    | Note => simp [hk]

/-- Witness for C5 on a concrete file containing a Question directive, a
non-comment line and a Note directive, but no `AI!` body. -/
theorem claim_C5_idempotent_witness :
    ((processFileForAIComments "f.py".data
        (some "# AI? hm\nrun()\n// todo: AI".data)).1.filter
      fun t => t.kind == TriggerKind.Modify) = []
  ∧ ∀ fresh, agentInvocations "f.py".data
      (some "# AI? hm\nrun()\n// todo: AI".data) fresh = [] :=
  claim_C5_idempotent _ _ (by decide)

/-- C10: for a trimmed directive comment line that starts with `#` or `//`
without a following space, `handleAIComment` strips nothing: the instruction
text passed on to the dispatch step is the entire trimmed line, marker
included. -/
theorem claim_C10_marker_kept (line : Str) (ht : jsTrim line = line)
    (_hc : isCommentLine line = true)
    (h1 : jsStartsWith line "# ".data = false)
    (h2 : jsStartsWith line "// ".data = false)
    (hd : isDirective line = true) :
    commentBody line = line
  ∧ ∃ k, checkAndTriggerAIAction line = some (k, line) := by
  have hbody : commentBody line = line := by
    unfold commentBody
    simp [h1, h2, ht]
  refine ⟨hbody, ?_⟩
  obtain ⟨k, hk⟩ := handleAIComment_of_ai (isDirective_includes_ai hd)
  rw [checkAndTriggerAIAction_eq, if_pos hd, hk, hbody]
  exact ⟨k, rfl⟩

/-- Witness for C10: `#stuff AI!` qualifies (it ends with `AI!`) and its
instruction text keeps the `#` marker attached. -/
theorem claim_C10_marker_kept_witness :
    commentBody "#stuff AI!".data = "#stuff AI!".data
  ∧ ∃ k, checkAndTriggerAIAction "#stuff AI!".data
      = some (k, "#stuff AI!".data) :=
  claim_C10_marker_kept _ (by decide) (by decide) (by decide) (by decide)
    (by decide)

/-- C9, counterexample. The claim says a null/empty read aborts the task with
no triggers, no invocation, *and the abort is logged*. On the code of
`src/unnamed/part_001` (`if (!text) return;`), a null read produces no
triggers and no invocations, but also no log line at all: the log component of
the result is empty, refuting the logging part of the claim. -/
theorem claim_C9_counterexample :
    processFileForAIComments "f.py".data none = ([], [])
  ∧ agentInvocations "f.py".data none (some "x".data) = [] :=
  ⟨rfl, rfl⟩

/-- C9, amended: a null or empty read aborts the task before any line is
scanned — no triggers and no agent invocations result — and the abort is
silent: no log line is emitted. -/
theorem claim_C9_silent_abort (fp : Str) (r : Option Str)
    (h : r = none ∨ r = some []) :
    (processFileForAIComments fp r).1 = []
  ∧ (processFileForAIComments fp r).2 = []
  ∧ ∀ fresh, agentInvocations fp r fresh = [] := by
  rcases h with rfl | rfl <;>
    simp [processFileForAIComments, agentInvocations]

/-- Witness for the amended C9 at the null read. -/
theorem claim_C9_silent_abort_witness :
    (processFileForAIComments "f.py".data none).1 = []
  ∧ (processFileForAIComments "f.py".data none).2 = []
  ∧ ∀ fresh, agentInvocations "f.py".data none fresh = [] :=
  claim_C9_silent_abort "f.py".data none (Or.inl rfl)

set_option maxRecDepth 16384 in
/-- C8, counterexample. The claim says the instruction payload contains the
triggering instruction text. For the Modify trigger of
`// AI! Add error handling` with fresh file content `abc` (the triggering line
no longer present at invocation time), the invocation exists but its user
message does not contain the instruction text: `content` is used only for a
log line, never in the payload. -/
theorem claim_C8_counterexample :
    Option.map (fun a => jsIncludes a.userMessage "AI! Add error handling".data)
      (triggerCodeModification "AI! Add error handling".data "a.ts".data
        (some "abc".data)).1 = some false := by
  decide

set_option maxRecDepth 16384 in
/-- C8, amended: for every Modify trigger the agent invocation is built from
the file content re-read fresh at invocation time (`freshRead`, the second
`getFile`) and the path only — independent of the triggering instruction
text, which appears only in the log. The user message is the template with
the fresh content substituted at its end and then trimmed as a whole, so it
contains the fresh content with its trailing whitespace stripped, and the full
content verbatim exactly when the content ends without whitespace; when the
content does not consist of whitespace alone, the message is precisely the
template body over the right-trimmed content. The message always carries the
post-condition that the agent must remove the lines ending with `AI!`, which
the system prompt repeats. -/
theorem claim_C8_payload (content fp t : Str) (h2 : t ≠ []) :
    (triggerCodeModification content fp (some t)).1 =
      some ⟨systemPromptStr, jsTrimEnd (userMsgBody fp t)⟩
  ∧ (jsTrimEnd t ≠ [] →
      jsTrimEnd (userMsgBody fp t) = userMsgBody fp (jsTrimEnd t))
  ∧ jsIncludes (jsTrimEnd (userMsgBody fp t)) (jsTrimEnd t) = true
  ∧ (jsTrimEnd t = t → jsIncludes (jsTrimEnd (userMsgBody fp t)) t = true)
  ∧ jsIncludes (jsTrimEnd (userMsgBody fp t))
      "MUST remove any lines that end with AI!".data = true
  ∧ jsIncludes systemPromptStr
      "MUST remove any lines that end with AI!".data = true
  ∧ (triggerCodeModification content fp (some t)).2 =
      ["[CodeWatchService] Instruction: ".data ++ content] := by
  have hne : t.isEmpty = false := by
    cases t with
    | nil => exact absurd rfl h2
    | cons c r => rfl
  have hsplitA : ∀ u : Str, userMsgBody fp u =
      (":The user has edited the file ".data ++ fp ++ msgMid ++ fp ++
        ":\n\n".data) ++ u := by
    intro u
    simp [userMsgBody, List.append_assoc]
  have hb1 : jsTrimEnd t ≠ [] →
      jsTrimEnd (userMsgBody fp t) = userMsgBody fp (jsTrimEnd t) := by
    intro h
    rw [hsplitA t, jsTrimEnd_append _ h, hsplitA (jsTrimEnd t)]
  have hb : jsIncludes (jsTrimEnd (userMsgBody fp t)) (jsTrimEnd t) = true := by
    by_cases h : jsTrimEnd t = []
    · rw [h]
      exact jsIncludes_nil_pat _
    · rw [hb1 h, hsplitA (jsTrimEnd t)]
      exact jsIncludes_append_left _ (jsIncludes_self _)
  refine ⟨?_, hb1, hb, ?_, ?_, by decide, ?_⟩
  · simp only [triggerCodeModification, hne, Bool.false_eq_true, if_false]
    rw [jsTrim_userMsgTemplate fp t]
  · intro heq
    have h := hb
    rw [heq] at h
    exact h
  · have hw : jsTrimEnd (":\n\n".data ++ t) ≠ [] := by
      rw [show (":\n\n".data : Str) = ':' :: "\n\n".data from by decide,
        List.cons_append]
      exact jsTrimEnd_cons_ne _ (by decide)
    have hs2 : userMsgBody fp t =
        (":The user has edited the file ".data ++ fp ++ msgMid ++ fp) ++
          (":\n\n".data ++ t) := by
      simp [userMsgBody, List.append_assoc]
    rw [hs2, jsTrimEnd_append _ hw]
    have hmid : jsIncludes msgMid
        "MUST remove any lines that end with AI!".data = true := by decide
    have hs3 : (":The user has edited the file ".data ++ fp ++ msgMid ++ fp) ++
          jsTrimEnd (":\n\n".data ++ t) =
        (":The user has edited the file ".data ++ fp) ++
          (msgMid ++ (fp ++ jsTrimEnd (":\n\n".data ++ t))) := by
      simp [List.append_assoc]
    rw [hs3]
    exact jsIncludes_append_left _ (jsIncludes_append_right _ hmid)
  · simp only [triggerCodeModification, hne, Bool.false_eq_true, if_false]

/-- Witness for the amended C8 at fresh content `abc` followed by a newline —
a file ending in a line break: the payload is the trimmed template and it
contains the right-trimmed content `abc`. -/
theorem claim_C8_payload_witness :
    (triggerCodeModification "AI! x".data "a.ts".data (some "abc\n".data)).1 =
      some ⟨systemPromptStr, jsTrimEnd (userMsgBody "a.ts".data "abc\n".data)⟩
  ∧ jsIncludes (jsTrimEnd (userMsgBody "a.ts".data "abc\n".data))
      "abc".data = true := by
  have h := claim_C8_payload "AI! x".data "a.ts".data "abc\n".data (by decide)
  refine ⟨h.1, ?_⟩
  have hb := h.2.2.1
  rw [show jsTrimEnd ("abc\n".data : Str) = "abc".data from by decide] at hb
  exact hb
